import Mathlib

/-!
Verification of `trax/layers/metrics.py` (Trax metrics layers).

The file under verification defines metric/loss layers (cross-entropy, L2,
accuracy), masking/weighting combinator pipelines (`WeightMask`,
`WeightedMean`, `CountWeights`, `MaskedScalar` and the `*Scalar` variants)
and the helper `one_hot`.

Embedding choices:
* Numpy/jax arrays are modelled as finite trees (`Tensor`): a leaf is a
  rational scalar (floats are modelled as `ℚ`; booleans produced by
  `np.equal` are modelled as the rationals `1`/`0`, matching numpy's
  arithmetic coercion), an inner node is the list of slices along the
  leading axis.  A rectangular tree corresponds to an array; the array
  operations used by the source (`*`, `-`, `==`, `np.sum` along the last
  axis or over everything, `np.argmax` along the last axis) are embedded
  as (partial) tree operations that return `none` where numpy would raise
  (shape mismatch, reduction over a missing axis).
* A layer is a function popping `n_in` tensors off a stack and pushing its
  results; fallible application returns `Option`.
* The layer-combinator library (`trax.layers.base`, `trax.layers.combinators`,
  `trax.layers.core`) is part of the repository but not among the provided
  sources; those pieces are modelled from the spec (marked below).
-/

namespace TraxMetrics

/-- A numpy/jax array value: a scalar leaf or the list of its slices along
the leading axis.  Rectangular trees correspond to arrays. -/
inductive Tensor where
  | scalar : ℚ → Tensor
  | vec : List Tensor → Tensor

mutual

/-- Sum of all entries of a tensor (`np.sum(x)` with `axis=None`). -/
def sumAll : Tensor → ℚ
  | .scalar q => q
  | .vec xs => sumAllList xs

/-- Sum of all entries of a list of tensors. -/
def sumAllList : List Tensor → ℚ
  | [] => 0
  | x :: xs => sumAll x + sumAllList xs

end

mutual

/-- Elementwise (shape-preserving) map over a tensor, as numpy broadcasts a
scalar operation over an array. -/
def mapT (f : ℚ → ℚ) : Tensor → Tensor
  | .scalar q => .scalar (f q)
  | .vec xs => .vec (mapTList f xs)

/-- Elementwise map over a list of tensors. -/
def mapTList (f : ℚ → ℚ) : List Tensor → List Tensor
  | [] => []
  | x :: xs => mapT f x :: mapTList f xs

end

mutual

/-- Elementwise binary operation on two same-shaped tensors (`*`, `-`, `==`
between same-shaped arrays); `none` on shape mismatch, where numpy raises.
The source only combines same-shaped arrays with these operators. -/
def zipT (op : ℚ → ℚ → ℚ) : Tensor → Tensor → Option Tensor
  | .scalar a, .scalar b => some (.scalar (op a b))
  | .vec xs, .vec ys => (zipTList op xs ys).map Tensor.vec
  | _, _ => none

/-- Elementwise binary operation on two lists of same-shaped tensors. -/
def zipTList (op : ℚ → ℚ → ℚ) : List Tensor → List Tensor → Option (List Tensor)
  | [], [] => some []
  | x :: xs, y :: ys => do
      let z ← zipT op x y
      let zs ← zipTList op xs ys
      pure (z :: zs)
  | [], _ :: _ => none
  | _ :: _, [] => none

end

/-- Is this tensor a scalar (a rank-0 array)? -/
def isScalar : Tensor → Bool
  | .scalar _ => true
  | .vec _ => false

/-- The scalar held in a leaf (`0` on an inner node, never used there). -/
def leafVal : Tensor → ℚ
  | .scalar q => q
  | .vec _ => 0

mutual

/-- `np.sum(x, axis=-1)`: collapse the innermost axis by summation.
`none` on a rank-0 array, where numpy raises. -/
def sumLast : Tensor → Option Tensor
  | .scalar _ => none
  | .vec xs =>
      if xs.all isScalar then some (.scalar (sumAllList xs))
      else (sumLastList xs).map Tensor.vec

/-- `sumLast` mapped over the slices of an outer axis. -/
def sumLastList : List Tensor → Option (List Tensor)
  | [] => some []
  | x :: xs => do
      let y ← sumLast x
      let ys ← sumLastList xs
      pure (y :: ys)

end

/-- Index of the first maximal element of a list (`np.argmax` along an axis
of these values; numpy returns the first occurrence on ties). -/
def argmaxList : List ℚ → ℕ
  | [] => 0
  | [_] => 0
  | x :: y :: rest =>
      let j := argmaxList (y :: rest)
      if x < (y :: rest).getD j 0 then j + 1 else 0

mutual

/-- `np.argmax(x, axis=-1)`: index of the maximum along the innermost axis.
`none` on a rank-0 array or an empty innermost axis, where numpy raises. -/
def argmaxLast : Tensor → Option Tensor
  | .scalar _ => none
  | .vec xs =>
      if xs.all isScalar then
        if xs.isEmpty then none
        else some (.scalar ((argmaxList (xs.map leafVal) : ℕ) : ℚ))
      else (argmaxLastList xs).map Tensor.vec

/-- `argmaxLast` mapped over the slices of an outer axis. -/
def argmaxLastList : List Tensor → Option (List Tensor)
  | [] => some []
  | x :: xs => do
      let y ← argmaxLast x
      let ys ← argmaxLastList xs
      pure (y :: ys)

end

/-- `x.shape[-1]`: the length of the innermost axis (of the first slice,
as for any rectangular array).  `none` on a rank-0 array. -/
def lastDim : Tensor → Option ℕ
  | .scalar _ => none
  | .vec [] => some 0
  | .vec (x :: xs) =>
      match x with
      | .scalar _ => some (xs.length + 1)
      | .vec ys => lastDim (Tensor.vec ys)

/-- `jax.lax.tie_in(x, y)`: ties `y` into the computation of `x` for the
jax tracer; its value is just `y`. -/
def tie_in (_x : Tensor) (indices : List ℚ) : List ℚ := indices

mutual

/-- `x[..., np.newaxis] == indices` cast to the numeric dtype: replaces each
entry `t` of `x` by the indicator row of `t` over `indices`. -/
def oneHotMap (indices : List ℚ) : Tensor → Tensor
  | .scalar t => .vec (indices.map (fun i => .scalar (if t = i then 1 else 0)))
  | .vec xs => .vec (oneHotMapList indices xs)

/-- `oneHotMap` over a list of tensors. -/
def oneHotMapList (indices : List ℚ) : List Tensor → List Tensor
  | [] => []
  | x :: xs => oneHotMap indices x :: oneHotMapList indices xs

end

/-- `one_hot(x, n_categories, dtype)`: makes a one-hot array (n+1 dims) from
an int-categorical array (n dims), with the jax broadcasting workaround
applied exactly when the backend is `"jax"`. -/
def one_hot (backend : String) (x : Tensor) (n_categories : ℕ) : Tensor :=
  let indices_less_than_n : List ℚ := (List.range n_categories).map (fun i : ℕ => (i : ℚ))
  let indices_less_than_n :=
    if backend = "jax" then tie_in x indices_less_than_n else indices_less_than_n
  oneHotMap indices_less_than_n x

/-- Modelled from the spec: a layer (`trax.layers.base`, not among the
provided sources) is a unit of a computation graph with a fixed number of
input and output tensors; it pops `n_in` tensors off the data stack and
pushes the tensors computed by its body. -/
structure Layer where
  n_in : ℕ
  n_out : ℕ
  f : List Tensor → Option (List Tensor)

/-- Modelled from the spec: applying a layer to a data stack feeds it the
top `n_in` entries and replaces them with its outputs, leaving the rest of
the stack untouched; it fails on a too-short stack. -/
def Layer.apply (L : Layer) (s : List Tensor) : Option (List Tensor) :=
  if L.n_in ≤ s.length then (L.f (s.take L.n_in)).map (fun out => out ++ s.drop L.n_in)
  else none

/-- Modelled from the spec: `cb.Serial` (sequential composition, from
`trax.layers.combinators`, not among the provided sources) applies its
sub-layers to the data stack in order.  Serial pipelines are represented
as the list of their sub-layers and run with this function. -/
def serial (layers : List Layer) (s : List Tensor) : Option (List Tensor) :=
  layers.foldlM (fun st l => l.apply st) s

/-- Modelled from the spec: the body of `cb.Parallel`: each sub-layer
consumes its own `n_in` consecutive entries of the input and their outputs
are concatenated. -/
def parallelF : List Layer → List Tensor → Option (List Tensor)
  | [], [] => some []
  | [], _ :: _ => none
  | l :: ls, args => do
      let out ← l.f (args.take l.n_in)
      let rest ← parallelF ls (args.drop l.n_in)
      pure (out ++ rest)

/-- Modelled from the spec: `cb.Parallel` as a layer; its arity is the sum
of the sub-layers' arities.  The `[]` argument of `cb.Parallel` in the
source (identity on one stack entry) is `idLayer` below. -/
def parallel (layers : List Layer) : Layer :=
  ⟨(layers.map Layer.n_in).sum, (layers.map Layer.n_out).sum, parallelF layers⟩

/-- Modelled from the spec: the identity on one stack entry (written `[]`
inside `cb.Parallel` in the source). -/
def idLayer : Layer :=
  ⟨1, 1, fun args => match args with
    | [x] => some [x]
    | _ => none⟩

/-- Modelled from the spec: `cb.Dup()` duplicates the top stack entry. -/
def Dup : Layer :=
  ⟨1, 2, fun args => match args with
    | [x] => some [x, x]
    | _ => none⟩

/-- Modelled from the spec: `cb.Drop()` drops the top stack entry. -/
def Drop : Layer :=
  ⟨1, 0, fun args => match args with
    | [_] => some []
    | _ => none⟩

/-- Modelled from the spec: `cb.Multiply()` multiplies the top two stack
entries elementwise. -/
def Multiply : Layer :=
  ⟨2, 1, fun args => match args with
    | [x, y] => (zipT (· * ·) x y).map (fun z => [z])
    | _ => none⟩

/-- Modelled from the spec: `core.Sum(axis=None)` (from `trax.layers.core`,
not among the provided sources) sums all entries of the top stack entry
into a scalar. -/
def SumLayer : Layer :=
  ⟨1, 1, fun args => match args with
    | [x] => some [.scalar (sumAll x)]
    | _ => none⟩

/-- Modelled from the spec: `base.Fn(lambda x: x * -1.0)` lifts the
one-argument function to a layer acting elementwise on the top entry. -/
def FnNeg : Layer :=
  ⟨1, 1, fun args => match args with
    | [x] => some [mapT (fun q => q * (-1)) x]
    | _ => none⟩

/-- `CrossEntropy`: `np.sum(prediction * one_hot(target, prediction.shape[-1]), axis=-1)`,
a layer with `n_in=2, n_out=1`.  `backend` is the runtime backend name read
by `one_hot`. -/
def CrossEntropy (backend : String) : Layer :=
  ⟨2, 1, fun args => match args with
    | [prediction, target] => do
        let n ← lastDim prediction
        let prod ← zipT (· * ·) prediction (one_hot backend target n)
        let r ← sumLast prod
        pure [r]
    | _ => none⟩

/-- `L2`: `np.sum((prediction - target)**2, axis=-1)`, a layer with
`n_in=2, n_out=1`. -/
def L2 : Layer :=
  ⟨2, 1, fun args => match args with
    | [prediction, target] => do
        let d ← zipT (· - ·) prediction target
        let r ← sumLast (mapT (fun a => a ^ 2) d)
        pure [r]
    | _ => none⟩

/-- `Accuracy`: `np.equal(np.argmax(prediction, axis=-1), target)`, a layer
with `n_in=2, n_out=1` (numpy booleans are modelled as `1`/`0`). -/
def Accuracy : Layer :=
  ⟨2, 1, fun args => match args with
    | [prediction, target] => do
        let predicted_class ← argmaxLast prediction
        let r ← zipT (fun a b => if a = b then 1 else 0) predicted_class target
        pure [r]
    | _ => none⟩

/-- `WeightMask`: `np.ones_like(target)` when `mask_id is None`, else
`1.0 - np.equal(target, mask_id).astype(np.float32)`; a layer with
`n_in=1, n_out=1`. -/
def WeightMask (mask_id : Option ℚ) : Layer :=
  ⟨1, 1, fun args => match args with
    | [target] =>
        match mask_id with
        | none => some [mapT (fun _ => 1) target]
        | some m => some [mapT (fun t => 1 - (if t = m then 1 else 0)) target]
    | _ => none⟩

/-- `WeightedMean`: `np.sum(metric * weights) / np.sum(weights)`, a layer
with `n_in=2, n_out=1` (no guard on a zero weight sum). -/
def WeightedMean : Layer :=
  ⟨2, 1, fun args => match args with
    | [metric, weights] => do
        let weights_sum := sumAll weights
        let p ← zipT (· * ·) metric weights
        pure [.scalar (sumAll p / weights_sum)]
    | _ => none⟩

/-- `CountWeights(mask_id, has_weights)`: the serial pipeline summing the
weights assigned to all elements (source lines 64-77), as its list of
sub-layers. -/
def CountWeights (mask_id : Option ℚ) (has_weights : Bool) : List Layer :=
  if has_weights then
    [Drop, WeightMask mask_id, Multiply, SumLayer]
  else
    [Drop, WeightMask mask_id, SumLayer]

/-- `MaskedScalar(metric_layer, mask_id, has_weights)`: metric as scalar
compatible with Trax masking (source lines 80-103), as its list of
sub-layers. -/
def MaskedScalar (metric_layer : Layer) (mask_id : Option ℚ) (has_weights : Bool) :
    List Layer :=
  let metric_and_mask :=
    [parallel [idLayer, Dup], parallel [metric_layer, WeightMask mask_id]]
  if has_weights then
    metric_and_mask ++ [parallel [idLayer, Multiply], WeightedMean]
  else
    metric_and_mask ++ [WeightedMean]

/-- `CrossEntropyScalar(mask_id, has_weights)`. -/
def CrossEntropyScalar (backend : String) (mask_id : Option ℚ) (has_weights : Bool) :
    List Layer :=
  MaskedScalar (CrossEntropy backend) mask_id has_weights

/-- `NegLogPerplexityScalar = CrossEntropyScalar` (an alias in the source). -/
def NegLogPerplexityScalar (backend : String) (mask_id : Option ℚ) (has_weights : Bool) :
    List Layer :=
  CrossEntropyScalar backend mask_id has_weights

/-- `CrossEntropyLossScalar(mask_id, has_weights)`:
`cb.Serial(CrossEntropyScalar(...), base.Fn(lambda x: x * -1.0))`. -/
def CrossEntropyLossScalar (backend : String) (mask_id : Option ℚ) (has_weights : Bool) :
    List Layer :=
  CrossEntropyScalar backend mask_id has_weights ++ [FnNeg]

/-- `L2Scalar(mask_id, has_weights)`. -/
def L2Scalar (mask_id : Option ℚ) (has_weights : Bool) : List Layer :=
  MaskedScalar L2 mask_id has_weights

/-- `L2LossScalar(mask_id, has_weights)`: returns `L2Scalar(...)` directly. -/
def L2LossScalar (mask_id : Option ℚ) (has_weights : Bool) : List Layer :=
  L2Scalar mask_id has_weights

/-- `AccuracyScalar(mask_id, has_weights)`. -/
def AccuracyScalar (mask_id : Option ℚ) (has_weights : Bool) : List Layer :=
  MaskedScalar Accuracy mask_id has_weights

/-! Helper constructors and observers used to state the specifications. -/

/-- A rank-1 float tensor built from a list of rationals. -/
def qvec (l : List ℚ) : Tensor := .vec (l.map .scalar)

/-- A rank-1 integer-valued tensor (e.g. a target vector). -/
def zvec (l : List ℤ) : Tensor := .vec (l.map (fun t : ℤ => .scalar (t : ℚ)))

/-- A rank-2 float tensor built from its rows. -/
def mat (rows : List (List ℚ)) : Tensor := .vec (rows.map qvec)

mutual

/-- The entries of a tensor, left to right (the flattened array). -/
def leaves : Tensor → List ℚ
  | .scalar q => [q]
  | .vec xs => leavesList xs

/-- The entries of a list of tensors, left to right. -/
def leavesList : List Tensor → List ℚ
  | [] => []
  | x :: xs => leaves x ++ leavesList xs

end

/-- The per-entry weight computed by `WeightMask` (both of its branches). -/
def maskFn : Option ℚ → ℚ → ℚ
  | none, _ => 1
  | some m, t => 1 - (if t = m then 1 else 0)

/-- The spec's description of a one-hot row: a row of `n` entries holding
`1` at index `t` and `0` elsewhere, and all zeros when `t` lies outside
`[0, n)`.  Stated independently of the source's `x[..., np.newaxis] ==
np.arange(n)` construction, for comparison with it. -/
def oneHotRowSpec (t : ℤ) (n : ℕ) : List ℚ :=
  if 0 ≤ t then (List.replicate n (0 : ℚ)).set t.toNat 1 else List.replicate n 0

/-- The entry of a prediction row selected by an integer target: the spec's
`prediction[target]`, and `0` when the target lies outside the row. -/
def predAt (r : List ℚ) (t : ℤ) : ℚ :=
  if 0 ≤ t ∧ t.toNat < r.length then r.getD t.toNat 0 else 0

/-- Modelled from the spec: a generic per-position metric layer.  Metric
layers (`CrossEntropy`, `L2`, `Accuracy`) consume a prediction and a target
and compute, at each position of the leading axis, a scalar depending only
on that position's prediction slice and target; `rowMetric g` is the layer
computing an arbitrary such per-position metric `g`. -/
def rowMetric (g : List ℚ → ℚ → ℚ) : Layer :=
  ⟨2, 1, fun args => match args with
    | [.vec rows, .vec ts] =>
        some [.vec (List.zipWith (fun r t => Tensor.scalar (g (leaves r) (leafVal t))) rows ts)]
    | _ => none⟩

/-! ## Helper lemmas about the embedding -/

lemma serial_nil (s : List Tensor) : serial [] s = some s := rfl

lemma serial_cons (l : Layer) (ls : List Layer) (s : List Tensor) :
    serial (l :: ls) s = (l.apply s).bind (serial ls) := by
  cases h : l.apply s <;> simp [serial, List.foldlM, h]

lemma serial_append (xs ys : List Layer) (s : List Tensor) :
    serial (xs ++ ys) s = (serial xs s).bind (serial ys) := by
  induction xs generalizing s with
  | nil => simp [serial_nil]
  | cons l ls ih =>
      rw [List.cons_append, serial_cons, serial_cons]
      cases l.apply s <;> simp [ih]

lemma sumAllList_scalars (l : List ℚ) : sumAllList (l.map Tensor.scalar) = l.sum := by
  induction l with
  | nil => simp [sumAllList]
  | cons x xs ih => simp [sumAllList, sumAll, ih]

lemma sumAll_qvec (l : List ℚ) : sumAll (qvec l) = l.sum := by
  simp [qvec, sumAll, sumAllList_scalars]

lemma mapT_qvec (f : ℚ → ℚ) (l : List ℚ) : mapT f (qvec l) = qvec (l.map f) := by
  simp only [qvec, mapT]
  congr 1
  induction l with
  | nil => simp [mapTList]
  | cons x xs ih => simp [mapTList, mapT, ih]

lemma zipT_qvec (op : ℚ → ℚ → ℚ) (a b : List ℚ) (h : a.length = b.length) :
    zipT op (qvec a) (qvec b) = some (qvec (List.zipWith op a b)) := by
  simp only [qvec, zipT]
  suffices hs : zipTList op (a.map Tensor.scalar) (b.map Tensor.scalar)
      = some ((List.zipWith op a b).map Tensor.scalar) by
    simp [hs]
  induction a generalizing b with
  | nil =>
      cases b with
      | nil => simp [zipTList]
      | cons y ys => simp at h
  | cons x xs ih =>
      cases b with
      | nil => simp at h
      | cons y ys =>
          simp only [List.map_cons, zipTList, zipT, List.zipWith_cons_cons]
          rw [ih ys (by simpa using h)]
          rfl

lemma zipTList_map2 {α β : Type} (op : ℚ → ℚ → ℚ) (f : α → Tensor) (g : β → Tensor)
    (k : α → β → Tensor) (xs : List α) (ys : List β) (hl : xs.length = ys.length)
    (h : ∀ p ∈ xs.zip ys, zipT op (f p.1) (g p.2) = some (k p.1 p.2)) :
    zipTList op (xs.map f) (ys.map g) = some ((xs.zip ys).map (fun p => k p.1 p.2)) := by
  induction xs generalizing ys with
  | nil =>
      cases ys with
      | nil => simp [zipTList]
      | cons y ys => simp at hl
  | cons x xs ih =>
      cases ys with
      | nil => simp at hl
      | cons y ys =>
          simp only [List.map_cons, zipTList, List.zip_cons_cons]
          rw [h (x, y) (by simp)]
          rw [ih ys (by simpa using hl) (fun p hp => h p (by simp [hp]))]
          rfl

lemma zipT_vec_map2 {α β : Type} (op : ℚ → ℚ → ℚ) (f : α → Tensor) (g : β → Tensor)
    (k : α → β → Tensor) (xs : List α) (ys : List β) (hl : xs.length = ys.length)
    (h : ∀ p ∈ xs.zip ys, zipT op (f p.1) (g p.2) = some (k p.1 p.2)) :
    zipT op (.vec (xs.map f)) (.vec (ys.map g))
      = some (.vec ((xs.zip ys).map (fun p => k p.1 p.2))) := by
  simp [zipT, zipTList_map2 op f g k xs ys hl h]

lemma sumLast_qvec (l : List ℚ) : sumLast (qvec l) = some (.scalar l.sum) := by
  have hall : (l.map Tensor.scalar).all isScalar = true := by
    simp [List.all_eq_true, isScalar]
  simp [qvec, sumLast, hall, sumAllList_scalars]

lemma sumLastList_qvecs (rows : List (List ℚ)) :
    sumLastList (rows.map qvec) = some (rows.map (fun r => Tensor.scalar r.sum)) := by
  induction rows with
  | nil => simp [sumLastList]
  | cons r rs ih => simp [sumLastList, sumLast_qvec, ih]

lemma sumLast_mat (rows : List (List ℚ)) (h : rows ≠ []) :
    sumLast (mat rows) = some (qvec (rows.map List.sum)) := by
  cases rows with
  | nil => exact absurd rfl h
  | cons r rs =>
      have hall : ((r :: rs).map qvec).all isScalar = false := by
        simp [qvec, isScalar]
      simp only [mat, sumLast, hall, Bool.false_eq_true, if_false]
      rw [sumLastList_qvecs]
      simp [qvec, Function.comp]

lemma map_leafVal_scalars (l : List ℚ) : (l.map Tensor.scalar).map leafVal = l := by
  induction l with
  | nil => simp
  | cons x xs ih => simp [leafVal, ih]

lemma leafVal_scalar (q : ℚ) : leafVal (Tensor.scalar q) = q := rfl

lemma argmaxLast_qvec (l : List ℚ) (h : l ≠ []) :
    argmaxLast (qvec l) = some (.scalar ((argmaxList l : ℕ) : ℚ)) := by
  have hall : (l.map Tensor.scalar).all isScalar = true := by
    simp [List.all_eq_true, isScalar]
  have hne : (l.map Tensor.scalar).isEmpty = false := by
    cases l with
    | nil => exact absurd rfl h
    | cons x xs => simp
  simp [qvec, argmaxLast, hall, hne, Function.comp_def, leafVal_scalar]

lemma argmaxLastList_qvecs (rows : List (List ℚ)) (h : ∀ r ∈ rows, r ≠ []) :
    argmaxLastList (rows.map qvec)
      = some (rows.map (fun r => Tensor.scalar ((argmaxList r : ℕ) : ℚ))) := by
  induction rows with
  | nil => simp [argmaxLastList]
  | cons r rs ih =>
      simp only [List.map_cons, argmaxLastList]
      rw [argmaxLast_qvec r (h r (by simp))]
      rw [ih (fun r hr => h r (by simp [hr]))]
      rfl

lemma argmaxLast_mat (rows : List (List ℚ)) (h : rows ≠ []) (h2 : ∀ r ∈ rows, r ≠ []) :
    argmaxLast (mat rows) = some (qvec (rows.map (fun r => ((argmaxList r : ℕ) : ℚ)))) := by
  cases rows with
  | nil => exact absurd rfl h
  | cons r rs =>
      have hall : ((r :: rs).map qvec).all isScalar = false := by
        simp [qvec, isScalar]
      simp only [mat, argmaxLast, hall, Bool.false_eq_true, if_false]
      rw [argmaxLastList_qvecs _ h2]
      simp [qvec, Function.comp]

lemma lastDim_qvec (l : List ℚ) : lastDim (qvec l) = some l.length := by
  cases l with
  | nil => simp [qvec, lastDim]
  | cons x xs => simp [qvec, lastDim]

lemma lastDim_mat (r : List ℚ) (rs : List (List ℚ)) :
    lastDim (mat (r :: rs)) = some r.length := by
  have h : lastDim (mat (r :: rs)) = lastDim (qvec r) := by
    simp [mat, qvec, lastDim]
  rw [h, lastDim_qvec]

lemma one_hot_backend_irrelevant (backend : String) (x : Tensor) (n : ℕ) :
    one_hot backend x n = one_hot "jax" x n := by
  simp [one_hot, tie_in]

lemma oneHotMapList_eq (idx : List ℚ) (xs : List Tensor) :
    oneHotMapList idx xs = xs.map (oneHotMap idx) := by
  induction xs with
  | nil => simp [oneHotMapList]
  | cons x xs ih => simp [oneHotMapList, ih]
lemma oneHotRow_eq_spec (t : ℤ) (n : ℕ) :
    ((List.range n).map (fun i : ℕ => (i : ℚ))).map
        (fun i => (if (t : ℚ) = i then (1 : ℚ) else 0))
      = oneHotRowSpec t n := by
  rw [List.map_map]
  have hlen2 : (oneHotRowSpec t n).length = n := by
    simp only [oneHotRowSpec]
    split <;> simp only [List.length_set, List.length_replicate]
  apply List.ext_getElem
  · simp only [List.length_map, List.length_range, hlen2]
  · intro i h1 h2
    simp only [List.getElem_map, List.getElem_range, Function.comp_apply]
    have hcast : ((t : ℚ) = ((i : ℕ) : ℚ)) ↔ (t = (i : ℤ)) := by
      constructor
      · intro hq
        exact_mod_cast hq
      · intro hz
        exact_mod_cast hz
    rw [hlen2] at h2
    by_cases ht : 0 ≤ t
    · simp only [oneHotRowSpec, if_pos ht]
      rw [List.getElem_set]
      by_cases he : t = (i : ℤ)
      · have htn : t.toNat = i := by omega
        rw [if_pos htn, if_pos (hcast.mpr he)]
      · have htn : t.toNat ≠ i := by omega
        rw [if_neg htn, List.getElem_replicate, if_neg (fun hq => he (hcast.mp hq))]
    · have hne : ¬ ((t : ℚ) = ((i : ℕ) : ℚ)) := fun hq => ht (by
        have := hcast.mp hq
        omega)
      simp only [oneHotRowSpec, if_neg ht, List.getElem_replicate, if_neg hne]

lemma one_hot_zvec_spec (backend : String) (ts : List ℤ) (n : ℕ) :
    one_hot backend (zvec ts) n = .vec (ts.map (fun t => qvec (oneHotRowSpec t n))) := by
  have hrow : ∀ t : ℤ,
      oneHotMap ((List.range n).map (fun i : ℕ => (i : ℚ))) (Tensor.scalar (t : ℚ))
        = qvec (oneHotRowSpec t n) := by
    intro t
    rw [qvec, ← oneHotRow_eq_spec t n]
    simp only [oneHotMap, List.map_map]
    rfl
  unfold one_hot
  simp only [tie_in, ite_self]
  rw [zvec]
  simp only [oneHotMap, oneHotMapList_eq, List.map_map]
  exact congrArg Tensor.vec (List.map_congr_left (fun t _ => hrow t))

lemma leavesList_scalars (l : List ℚ) : leavesList (l.map Tensor.scalar) = l := by
  induction l with
  | nil => simp [leavesList]
  | cons x xs ih => simp [leavesList, leaves, ih]

lemma leaves_qvec (l : List ℚ) : leaves (qvec l) = l := by
  simp [qvec, leaves, leavesList_scalars]

mutual

lemma leaves_mapT (f : ℚ → ℚ) : ∀ t : Tensor, leaves (mapT f t) = (leaves t).map f
  | .scalar q => by simp [mapT, leaves]
  | .vec xs => by
      simp only [mapT, leaves]
      exact leavesList_mapTList f xs

lemma leavesList_mapTList (f : ℚ → ℚ) : ∀ xs : List Tensor,
    leavesList (mapTList f xs) = (leavesList xs).map f
  | [] => by simp [mapTList, leavesList]
  | x :: xs => by
      simp only [mapTList, leavesList, List.map_append]
      rw [leaves_mapT f x, leavesList_mapTList f xs]

end

lemma maskFn_none : maskFn none = fun _ => (1 : ℚ) := rfl

lemma maskFn_some (m : ℚ) : maskFn (some m) = fun t => 1 - (if t = m then 1 else 0) := rfl

lemma maskFn_some_eq (m t : ℚ) : maskFn (some m) t = if t = m then 0 else 1 := by
  by_cases h : t = m <;> simp [maskFn_some, h]

lemma WeightMask_n_in (mid : Option ℚ) : (WeightMask mid).n_in = 1 := by
  cases mid <;> rfl

lemma WeightMask_f (mid : Option ℚ) (t : Tensor) :
    (WeightMask mid).f [t] = some [mapT (maskFn mid) t] := by
  cases mid <;> simp [WeightMask, maskFn_none, maskFn_some]

lemma mask_qvec_some (m : ℚ) (qs : List ℚ) :
    mapT (maskFn (some m)) (qvec qs)
      = qvec (qs.map (fun t => if t = m then 0 else 1)) := by
  rw [mapT_qvec]
  exact congrArg qvec (List.map_congr_left (fun t _ => maskFn_some_eq m t))

lemma mask_qvec_none (qs : List ℚ) :
    mapT (maskFn none) (qvec qs) = qvec (qs.map (fun _ => 1)) := by
  rw [mapT_qvec, maskFn_none]

lemma maskedScalar_run (metric : Layer) (mid : Option ℚ) (pred tgt mval p : Tensor)
    (h2 : metric.n_in = 2)
    (hm : metric.f [pred, tgt] = some [mval])
    (hp : zipT (· * ·) mval (mapT (maskFn mid) tgt) = some p) :
    serial (MaskedScalar metric mid false) [pred, tgt]
      = some [.scalar (sumAll p / sumAll (mapT (maskFn mid) tgt))] := by
  have e1 : (parallel [idLayer, Dup]).apply [pred, tgt] = some [pred, tgt, tgt] := by
    simp [parallel, parallelF, idLayer, Dup, Layer.apply]
  have e2 : (parallel [metric, WeightMask mid]).apply [pred, tgt, tgt]
      = some [mval, mapT (maskFn mid) tgt] := by
    simp [parallel, parallelF, Layer.apply, h2, WeightMask_n_in, WeightMask_f, hm]
  have e3 : WeightedMean.apply [mval, mapT (maskFn mid) tgt]
      = some [.scalar (sumAll p / sumAll (mapT (maskFn mid) tgt))] := by
    simp [WeightedMean, Layer.apply, hp]
  simp [MaskedScalar, serial_cons, serial_nil, e1, e2, e3]

lemma maskedScalar_run_weighted (metric : Layer) (mid : Option ℚ)
    (pred tgt w mval mw p : Tensor)
    (h2 : metric.n_in = 2)
    (hm : metric.f [pred, tgt] = some [mval])
    (hmw : zipT (· * ·) (mapT (maskFn mid) tgt) w = some mw)
    (hp : zipT (· * ·) mval mw = some p) :
    serial (MaskedScalar metric mid true) [pred, tgt, w]
      = some [.scalar (sumAll p / sumAll mw)] := by
  have e1 : (parallel [idLayer, Dup]).apply [pred, tgt, w] = some [pred, tgt, tgt, w] := by
    simp [parallel, parallelF, idLayer, Dup, Layer.apply]
  have e2 : (parallel [metric, WeightMask mid]).apply [pred, tgt, tgt, w]
      = some [mval, mapT (maskFn mid) tgt, w] := by
    simp [parallel, parallelF, Layer.apply, h2, WeightMask_n_in, WeightMask_f, hm]
  have e3 : (parallel [idLayer, Multiply]).apply [mval, mapT (maskFn mid) tgt, w]
      = some [mval, mw] := by
    simp [parallel, parallelF, idLayer, Multiply, Layer.apply, hmw]
  have e4 : WeightedMean.apply [mval, mw] = some [.scalar (sumAll p / sumAll mw)] := by
    simp [WeightedMean, Layer.apply, hp]
  simp [MaskedScalar, serial_cons, serial_nil, e1, e2, e3, e4]

lemma countWeights_run (mid : Option ℚ) (x tgt : Tensor) :
    serial (CountWeights mid false) [x, tgt]
      = some [.scalar (sumAll (mapT (maskFn mid) tgt))] := by
  have e1 : Drop.apply [x, tgt] = some [tgt] := by
    simp [Drop, Layer.apply]
  have e2 : (WeightMask mid).apply [tgt] = some [mapT (maskFn mid) tgt] := by
    simp [Layer.apply, WeightMask_n_in, WeightMask_f]
  have e3 : SumLayer.apply [mapT (maskFn mid) tgt]
      = some [.scalar (sumAll (mapT (maskFn mid) tgt))] := by
    simp [SumLayer, Layer.apply]
  simp [CountWeights, serial_cons, serial_nil, e1, e2, e3]

lemma countWeights_run_weighted (mid : Option ℚ) (x tgt w mw : Tensor)
    (hmw : zipT (· * ·) (mapT (maskFn mid) tgt) w = some mw) :
    serial (CountWeights mid true) [x, tgt, w] = some [.scalar (sumAll mw)] := by
  have e1 : Drop.apply [x, tgt, w] = some [tgt, w] := by
    simp [Drop, Layer.apply]
  have e2 : (WeightMask mid).apply [tgt, w] = some [mapT (maskFn mid) tgt, w] := by
    simp [Layer.apply, WeightMask_n_in, WeightMask_f]
  have e3 : Multiply.apply [mapT (maskFn mid) tgt, w] = some [mw] := by
    simp [Multiply, Layer.apply, hmw]
  have e4 : SumLayer.apply [mw] = some [.scalar (sumAll mw)] := by
    simp [SumLayer, Layer.apply]
  simp [CountWeights, serial_cons, serial_nil, e1, e2, e3, e4]

lemma oneHotRowSpec_length (t : ℤ) (n : ℕ) : (oneHotRowSpec t n).length = n := by
  simp only [oneHotRowSpec]
  split <;> simp only [List.length_set, List.length_replicate]

lemma sum_zipWith_mul_zero (l : List ℚ) (n : ℕ) :
    (List.zipWith (· * ·) l (List.replicate n (0 : ℚ))).sum = 0 := by
  induction l generalizing n with
  | nil => simp
  | cons a as ih =>
      cases n with
      | zero => simp
      | succ k => simp [List.replicate_succ, ih]

lemma sum_select : ∀ (r : List ℚ) (t : ℤ),
    (List.zipWith (· * ·) r (oneHotRowSpec t r.length)).sum = predAt r t
  | [], t => by
      simp [oneHotRowSpec, predAt]
  | a :: as, t => by
      by_cases ht : 0 ≤ t
      · by_cases ht0 : t = 0
        · subst ht0
          simp only [oneHotRowSpec, if_pos ht, List.length_cons, Int.toNat_zero,
            List.replicate_succ, List.set_cons_zero, List.zipWith_cons_cons, List.sum_cons]
          rw [sum_zipWith_mul_zero]
          simp [predAt]
        · have ht1 : 1 ≤ t := by omega
          have htn : t.toNat = (t - 1).toNat + 1 := by omega
          have hrec := sum_select as (t - 1)
          simp only [oneHotRowSpec, if_pos ht, List.length_cons, htn,
            List.replicate_succ, List.set_cons_succ, List.zipWith_cons_cons, List.sum_cons]
          have : (List.replicate as.length (0:ℚ)).set (t - 1).toNat 1
              = oneHotRowSpec (t - 1) as.length := by
            simp only [oneHotRowSpec]
            rw [if_pos (show (0:ℤ) ≤ t - 1 by omega)]
          rw [this, hrec]
          simp only [predAt, List.length_cons]
          have h1 : (0 ≤ t ∧ t.toNat < as.length + 1) ↔ (0 ≤ t - 1 ∧ (t-1).toNat < as.length) := by
            omega
          by_cases hin : 0 ≤ t - 1 ∧ (t - 1).toNat < as.length
          · rw [if_pos (h1.mpr hin), if_pos hin]
            rw [htn, List.getD_cons_succ]
            ring
          · rw [if_neg (fun hh => hin (h1.mp hh)), if_neg hin]
            ring
      · simp only [oneHotRowSpec, if_neg ht, List.length_cons, List.replicate_succ,
          List.zipWith_cons_cons, List.sum_cons]
        rw [sum_zipWith_mul_zero]
        simp only [predAt]
        rw [if_neg (by omega)]
        ring

lemma zip_ne_nil {α β : Type} (xs : List α) (ys : List β) (h : xs ≠ [])
    (hl : xs.length = ys.length) : xs.zip ys ≠ [] := by
  cases xs with
  | nil => exact absurd rfl h
  | cons x xs =>
      cases ys with
      | nil => simp at hl
      | cons y ys => simp

lemma crossEntropy_eval (backend : String) (rows : List (List ℚ)) (ts : List ℤ) (n : ℕ)
    (hne : rows ≠ []) (hlen : rows.length = ts.length) (hrect : ∀ r ∈ rows, r.length = n) :
    (CrossEntropy backend).f [mat rows, zvec ts]
      = some [qvec ((rows.zip ts).map (fun p => predAt p.1 p.2))] := by
  obtain ⟨r0, rs, rfl⟩ : ∃ r0 rs, rows = r0 :: rs := by
    cases rows with
    | nil => exact absurd rfl hne
    | cons a b => exact ⟨a, b, rfl⟩
  have hn : r0.length = n := hrect r0 (by simp)
  have hdim : lastDim (mat (r0 :: rs)) = some n := by
    rw [lastDim_mat, hn]
  have hoh := one_hot_zvec_spec backend ts n
  have hzip : zipT (· * ·) (mat (r0 :: rs)) (one_hot backend (zvec ts) n)
      = some (mat (((r0 :: rs).zip ts).map
          (fun p => List.zipWith (· * ·) p.1 (oneHotRowSpec p.2 n)))) := by
    rw [hoh, mat]
    have := zipT_vec_map2 (· * ·) qvec (fun t => qvec (oneHotRowSpec t n))
      (fun r t => qvec (List.zipWith (· * ·) r (oneHotRowSpec t n)))
      (r0 :: rs) ts hlen
      (fun p hp => by
        apply zipT_qvec
        rw [hrect p.1 (List.of_mem_zip hp).1, oneHotRowSpec_length])
    rw [this, mat, List.map_map]
    rfl
  have hzne : ((r0 :: rs).zip ts) ≠ [] := zip_ne_nil _ _ (by simp) hlen
  have hsum := sumLast_mat (((r0 :: rs).zip ts).map
      (fun p => List.zipWith (· * ·) p.1 (oneHotRowSpec p.2 n))) (by simpa using hzne)
  simp only [CrossEntropy, hdim, Option.bind_eq_bind, Option.some_bind, hzip, hsum,
    Option.bind_some]
  rw [List.map_map]
  refine congrArg (fun l => some [qvec l]) ?_
  refine List.map_congr_left (fun p hp => ?_)
  have hplen : p.1.length = n := hrect p.1 (List.of_mem_zip hp).1
  have := sum_select p.1 p.2
  rw [hplen] at this
  simpa using this

lemma argmaxList_cons2 (x y : ℚ) (rest : List ℚ) :
    argmaxList (x :: y :: rest)
      = if x < (y :: rest).getD (argmaxList (y :: rest)) 0
        then argmaxList (y :: rest) + 1 else 0 := by
  simp only [argmaxList]

lemma argmaxList_lt_length : ∀ l : List ℚ, l ≠ [] → argmaxList l < l.length
  | [_], _ => by simp [argmaxList]
  | x :: y :: rest, _ => by
      have ih := argmaxList_lt_length (y :: rest) (by simp)
      rw [argmaxList_cons2]
      by_cases hx : x < (y :: rest).getD (argmaxList (y :: rest)) 0
      · rw [if_pos hx]
        simp only [List.length_cons] at ih ⊢
        omega
      · rw [if_neg hx]
        simp

lemma argmaxList_is_max : ∀ (l : List ℚ) (j : ℕ), j < l.length →
    l.getD j 0 ≤ l.getD (argmaxList l) 0
  | [], j, hj => by simp at hj
  | [x], j, hj => by
      have : j = 0 := by simpa using hj
      subst this
      simp [argmaxList]
  | x :: y :: rest, j, hj => by
      rw [argmaxList_cons2]
      by_cases hx : x < (y :: rest).getD (argmaxList (y :: rest)) 0
      · rw [if_pos hx, List.getD_cons_succ]
        cases j with
        | zero => simpa using le_of_lt hx
        | succ k =>
            rw [List.getD_cons_succ]
            exact argmaxList_is_max (y :: rest) k (by simpa using hj)
      · rw [if_neg hx, List.getD_cons_zero]
        push_neg at hx
        cases j with
        | zero => simp
        | succ k =>
            rw [List.getD_cons_succ]
            exact le_trans (argmaxList_is_max (y :: rest) k (by simpa using hj)) hx

lemma zvec_eq_qvec (ts : List ℤ) : zvec ts = qvec (ts.map (fun t : ℤ => (t : ℚ))) := by
  rw [zvec, qvec, List.map_map]
  rfl

lemma natCast_eq_intCast_iff (k : ℕ) (t : ℤ) : (((k : ℕ) : ℚ) = ((t : ℤ) : ℚ)) ↔ ((k : ℤ) = t) := by
  constructor
  · intro h
    exact_mod_cast h
  · intro h
    exact_mod_cast h

lemma accuracy_eval (rows : List (List ℚ)) (ts : List ℤ)
    (hne : rows ≠ []) (hlen : rows.length = ts.length) (hrows : ∀ r ∈ rows, r ≠ []) :
    Accuracy.f [mat rows, zvec ts]
      = some [qvec ((rows.zip ts).map
          (fun p => if (argmaxList p.1 : ℤ) = p.2 then 1 else 0))] := by
  have ham := argmaxLast_mat rows hne hrows
  have hz : zipT (fun a b => if a = b then 1 else 0)
      (qvec (rows.map (fun r => ((argmaxList r : ℕ) : ℚ))))
      (qvec (ts.map (fun t : ℤ => (t : ℚ))))
      = some (qvec (List.zipWith
          (fun a b => if a = b then (1:ℚ) else 0)
          (rows.map (fun r => ((argmaxList r : ℕ) : ℚ)))
          (ts.map (fun t : ℤ => (t : ℚ))))) := by
    apply zipT_qvec
    simpa using hlen
  simp only [Accuracy, ham, zvec_eq_qvec, hz, Option.bind_eq_bind, Option.some_bind,
    Option.bind_some]
  refine congrArg (fun l => some [qvec l]) ?_
  rw [List.zipWith_map, ← List.map_uncurry_zip_eq_zipWith]
  refine List.map_congr_left (fun p _ => ?_)
  simp only [Function.uncurry]
  by_cases h : (argmaxList p.1 : ℤ) = p.2
  · rw [if_pos ((natCast_eq_intCast_iff _ _).mpr h), if_pos h]
  · rw [if_neg (fun hq => h ((natCast_eq_intCast_iff _ _).mp hq)), if_neg h]

lemma mapTList_eq (f : ℚ → ℚ) (xs : List Tensor) : mapTList f xs = xs.map (mapT f) := by
  induction xs with
  | nil => simp [mapTList]
  | cons x xs ih => simp [mapTList, ih]

lemma mapT_mat (f : ℚ → ℚ) (rows : List (List ℚ)) :
    mapT f (mat rows) = mat (rows.map (fun r => r.map f)) := by
  simp only [mat, mapT, mapTList_eq, List.map_map]
  refine congrArg Tensor.vec (List.map_congr_left (fun r _ => ?_))
  exact mapT_qvec f r

lemma l2_eval (rowsP rowsT : List (List ℚ))
    (hne : rowsP ≠ []) (hlen : rowsP.length = rowsT.length)
    (hshape : ∀ p ∈ rowsP.zip rowsT, p.1.length = p.2.length) :
    L2.f [mat rowsP, mat rowsT]
      = some [qvec ((rowsP.zip rowsT).map
          (fun p => (List.zipWith (fun a b => (a - b) ^ 2) p.1 p.2).sum))] := by
  have hd : zipT (· - ·) (mat rowsP) (mat rowsT)
      = some (mat ((rowsP.zip rowsT).map (fun p => List.zipWith (· - ·) p.1 p.2))) := by
    rw [mat, mat]
    have := zipT_vec_map2 (· - ·) qvec qvec
      (fun r1 r2 => qvec (List.zipWith (· - ·) r1 r2)) rowsP rowsT hlen
      (fun p hp => zipT_qvec _ _ _ (hshape p hp))
    rw [this, mat, List.map_map]
    rfl
  have hzne : rowsP.zip rowsT ≠ [] := zip_ne_nil _ _ hne hlen
  have hmap := mapT_mat (fun a => a ^ 2)
      ((rowsP.zip rowsT).map (fun p => List.zipWith (· - ·) p.1 p.2))
  have hsum := sumLast_mat
      (((rowsP.zip rowsT).map (fun p => List.zipWith (· - ·) p.1 p.2)).map
        (fun r => r.map (fun a => a ^ 2)))
      (by simpa using hzne)
  simp only [L2, hd, Option.bind_eq_bind, Option.some_bind, hmap, hsum, Option.bind_some]
  rw [List.map_map, List.map_map]
  refine congrArg (fun l => some [qvec l]) ?_
  refine List.map_congr_left (fun p _ => ?_)
  simp only [Function.comp_apply, List.map_zipWith]

lemma sum_zipWith_mul_congr (v1 v2 mask : List ℚ)
    (h1 : v1.length = mask.length) (h2 : v2.length = mask.length)
    (hag : ∀ i, i < mask.length → mask.getD i 0 ≠ 0 → v1.getD i 0 = v2.getD i 0) :
    (List.zipWith (· * ·) v1 mask).sum = (List.zipWith (· * ·) v2 mask).sum := by
  induction mask generalizing v1 v2 with
  | nil => simp
  | cons m ms ih =>
      cases v1 with
      | nil => simp at h1
      | cons a as =>
          cases v2 with
          | nil => simp at h2
          | cons b bs =>
              simp only [List.zipWith_cons_cons, List.sum_cons]
              have htail := ih as bs (by simpa using h1) (by simpa using h2)
                (fun i hi hm => by
                  have := hag (i + 1) (by simpa using Nat.succ_lt_succ hi)
                    (by simpa using hm)
                  simpa using this)
              rw [htail]
              by_cases hm : m = 0
              · rw [hm]
                ring
              · have := hag 0 (by simp) (by simpa using hm)
                simp only [List.getD_cons_zero] at this
                rw [this]

mutual

lemma mapT_congr (f g : ℚ → ℚ) (hfg : ∀ x, f x = g x) : ∀ t : Tensor, mapT f t = mapT g t
  | .scalar q => by simp [mapT, hfg q]
  | .vec xs => by
      simp only [mapT]
      exact congrArg Tensor.vec (mapTList_congr f g hfg xs)

lemma mapTList_congr (f g : ℚ → ℚ) (hfg : ∀ x, f x = g x) :
    ∀ xs : List Tensor, mapTList f xs = mapTList g xs
  | [] => rfl
  | x :: xs => by
      simp only [mapTList]
      rw [mapT_congr f g hfg x, mapTList_congr f g hfg xs]

end

lemma qvec_inj {a b : List ℚ} (h : qvec a = qvec b) : a = b := by
  have := congrArg leaves h
  rwa [leaves_qvec, leaves_qvec] at this

lemma rowMetric_eval (g : List ℚ → ℚ → ℚ) (rows : List (List ℚ)) (ts : List ℤ) :
    (rowMetric g).f [mat rows, zvec ts]
      = some [qvec (List.zipWith (fun r t => g r ((t : ℤ) : ℚ)) rows ts)] := by
  simp only [rowMetric, mat, zvec, List.zipWith_map, qvec, List.map_zipWith]
  refine congrArg (fun l => some [Tensor.vec l]) ?_
  refine congrArg (fun f => List.zipWith f rows ts) ?_
  funext a b
  show Tensor.scalar (g (leaves (qvec a)) (leafVal (Tensor.scalar (b : ℚ))))
      = Tensor.scalar (g a (b : ℚ))
  rw [leaves_qvec, leafVal_scalar]

lemma sum_map_one (qs : List ℚ) : (qs.map (fun _ => (1 : ℚ))).sum = (qs.length : ℚ) := by
  induction qs with
  | nil => simp
  | cons x xs ih =>
      rw [List.map_cons, List.sum_cons, ih, List.length_cons]
      push_cast
      ring

lemma sum_mask_count (m : ℚ) (qs : List ℚ) :
    (qs.map (fun t => if t = m then (0 : ℚ) else 1)).sum
      = ((qs.filter (fun t => t ≠ m)).length : ℚ) := by
  induction qs with
  | nil => simp
  | cons x xs ih =>
      by_cases hx : x = m
      · simp [hx, ih]
      · simp only [List.map_cons, List.sum_cons, if_neg hx, List.filter_cons,
          decide_not, ih]
        rw [if_pos (by simp [hx] : (!decide (x = m)) = true), List.length_cons]
        push_cast
        ring

lemma zipWith_mask_mul (m : ℚ) (qs ws : List ℚ) :
    List.zipWith (· * ·) (qs.map (fun t => if t = m then (0 : ℚ) else 1)) ws
      = List.zipWith (fun t w => if t = m then 0 else w) qs ws := by
  induction qs generalizing ws with
  | nil => simp
  | cons x xs ih =>
      cases ws with
      | nil => simp
      | cons w wsr =>
          simp only [List.map_cons, List.zipWith_cons_cons, ih]
          by_cases hx : x = m
          · simp [hx]
          · simp [hx]

/-! ## Claims -/

/-- **C1** (counterexample): the claim states that `CrossEntropy` returns, at
each position, the negative log-likelihood `-prediction[target]`.  On the
prediction row `[1, 2]` with target class `0` the layer returns
`+1 = prediction[0]` (the value of `np.sum(prediction * one_hot(target, 2))`),
not `-1`. -/
theorem crossEntropy_claim_counterexample :
    (CrossEntropy "jax").f [mat [[1, 2]], zvec [0]] = some [qvec [1]]
    ∧ ¬ ((CrossEntropy "jax").f [mat [[1, 2]], zvec [0]] = some [qvec [-1]]) := by
  have heval : (CrossEntropy "jax").f [mat [[1, 2]], zvec [0]] = some [qvec [1]] := by
    norm_num [CrossEntropy, mat, qvec, zvec, lastDim, one_hot, tie_in, oneHotMap,
      oneHotMapList, zipT, zipTList, sumLast, sumLastList, sumAll, sumAllList, isScalar,
      List.range, List.range.loop]
  refine ⟨heval, fun h => ?_⟩
  rw [heval] at h
  simp only [Option.some.injEq, List.cons.injEq, and_true] at h
  have := qvec_inj h
  norm_num at this

/-- **C1** (amended): `CrossEntropy` consumes `(prediction, target)` and
returns, along the last axis, `np.sum(prediction * one_hot(target, n))`: at
each position the entry `prediction[target]` itself — the (positive)
log-likelihood, not its negation; the factor `-1.0` is applied only later by
`CrossEntropyLossScalar` — and `0` when the target lies outside `[0, n)`. -/
theorem crossEntropy_spec (backend : String) (rows : List (List ℚ)) (ts : List ℤ) (n : ℕ)
    (hne : rows ≠ []) (hlen : rows.length = ts.length) (hrect : ∀ r ∈ rows, r.length = n) :
    (CrossEntropy backend).f [mat rows, zvec ts]
      = some [qvec ((rows.zip ts).map (fun p => predAt p.1 p.2))] :=
  crossEntropy_eval backend rows ts n hne hlen hrect

/-- Witness for `crossEntropy_spec` at a concrete input. -/
theorem crossEntropy_spec_witness :
    (([[1, 2], [3, 4]] : List (List ℚ)) ≠ []
      ∧ ([[1, 2], [3, 4]] : List (List ℚ)).length = ([1, 0] : List ℤ).length
      ∧ (∀ r ∈ ([[1, 2], [3, 4]] : List (List ℚ)), r.length = 2))
    ∧ (CrossEntropy "jax").f [mat [[1, 2], [3, 4]], zvec [1, 0]]
        = some [qvec ((([[1, 2], [3, 4]] : List (List ℚ)).zip ([1, 0] : List ℤ)).map
            (fun p => predAt p.1 p.2))] :=
  ⟨⟨by decide, by decide, by decide⟩,
    crossEntropy_spec "jax" [[1, 2], [3, 4]] [1, 0] 2 (by decide) (by decide) (by decide)⟩

/-- **C4**: `WeightMask` returns a 0/1-valued mask of the same shape as the
target: with `mask_id = some m` each entry is `0` exactly where the target
entry equals `m` and `1` elsewhere; with `mask_id = none` every entry is `1`
(no position is excluded). -/
theorem weightMask_spec (m : ℚ) (t : Tensor) :
    ((WeightMask (some m)).f [t] = some [mapT (fun x => if x = m then 0 else 1) t])
    ∧ (leaves (mapT (fun x => if x = m then 0 else 1) t)
        = (leaves t).map (fun x => if x = m then 0 else 1))
    ∧ (∀ q ∈ leaves (mapT (fun x => if x = m then 0 else 1) t), q = 0 ∨ q = 1)
    ∧ ((WeightMask none).f [t] = some [mapT (fun _ => 1) t])
    ∧ (leaves (mapT (fun _ => (1 : ℚ)) t) = (leaves t).map (fun _ => 1)) := by
  refine ⟨?_, leaves_mapT _ t, ?_, ?_, leaves_mapT _ t⟩
  · rw [WeightMask_f]
    exact congrArg (fun x => some [x]) (mapT_congr _ _ (maskFn_some_eq m) t)
  · intro q hq
    rw [leaves_mapT] at hq
    obtain ⟨x, _, rfl⟩ := List.mem_map.mp hq
    by_cases hxm : x = m
    · exact Or.inl (by simp [hxm])
    · exact Or.inr (by simp [hxm])
  · rw [WeightMask_f, maskFn_none]

/-- Witness for `weightMask_spec` at a concrete input. -/
theorem weightMask_spec_witness :
    ((WeightMask (some 0)).f [zvec [1, 0, 2]]
        = some [mapT (fun x => if x = 0 then 0 else 1) (zvec [1, 0, 2])])
    ∧ (leaves (mapT (fun x => if x = (0 : ℚ) then 0 else 1) (zvec [1, 0, 2]))
        = (leaves (zvec [1, 0, 2])).map (fun x => if x = 0 then 0 else 1)) := by
  obtain ⟨a, b, _, _, _⟩ := weightMask_spec 0 (zvec [1, 0, 2])
  exact ⟨a, b⟩

/-- **C7**: `L2` consumes two same-shaped tensors and returns, at each
position, the sum along the last axis of the elementwise squared differences
`(prediction - target)^2`. -/
theorem l2_spec (rowsP rowsT : List (List ℚ))
    (hne : rowsP ≠ []) (hlen : rowsP.length = rowsT.length)
    (hshape : ∀ p ∈ rowsP.zip rowsT, p.1.length = p.2.length) :
    L2.f [mat rowsP, mat rowsT]
      = some [qvec ((rowsP.zip rowsT).map
          (fun p => (List.zipWith (fun a b => (a - b) ^ 2) p.1 p.2).sum))] :=
  l2_eval rowsP rowsT hne hlen hshape

/-- Witness for `l2_spec` at a concrete input. -/
theorem l2_spec_witness :
    (([[1, 2], [3, 4]] : List (List ℚ)) ≠ []
      ∧ ([[1, 2], [3, 4]] : List (List ℚ)).length = ([[1, 0], [0, 4]] : List (List ℚ)).length
      ∧ (∀ p ∈ ([[1, 2], [3, 4]] : List (List ℚ)).zip ([[1, 0], [0, 4]] : List (List ℚ)),
          p.1.length = p.2.length))
    ∧ L2.f [mat [[1, 2], [3, 4]], mat [[1, 0], [0, 4]]]
        = some [qvec ((([[1, 2], [3, 4]] : List (List ℚ)).zip
            ([[1, 0], [0, 4]] : List (List ℚ))).map
              (fun p => (List.zipWith (fun a b => (a - b) ^ 2) p.1 p.2).sum))] :=
  ⟨⟨by decide, by decide, by decide⟩,
    l2_spec [[1, 2], [3, 4]] [[1, 0], [0, 4]] (by decide) (by decide) (by decide)⟩

/-- **C8**: `Accuracy` returns, at each position, whether the index of the
maximum of the prediction row along the last axis equals the target class
(`1` when equal, `0` otherwise); `argmaxList` indeed points at a maximum of
the row (numpy's argmax, first occurrence on ties). -/
theorem accuracy_spec (rows : List (List ℚ)) (ts : List ℤ)
    (hne : rows ≠ []) (hlen : rows.length = ts.length) (hrows : ∀ r ∈ rows, r ≠ []) :
    (Accuracy.f [mat rows, zvec ts]
      = some [qvec ((rows.zip ts).map
          (fun p => if (argmaxList p.1 : ℤ) = p.2 then 1 else 0))])
    ∧ (∀ r : List ℚ, r ≠ [] →
        argmaxList r < r.length
        ∧ ∀ j, j < r.length → r.getD j 0 ≤ r.getD (argmaxList r) 0) :=
  ⟨accuracy_eval rows ts hne hlen hrows,
    fun r hr => ⟨argmaxList_lt_length r hr, fun j hj => argmaxList_is_max r j hj⟩⟩

/-- Witness for `accuracy_spec` at a concrete input. -/
theorem accuracy_spec_witness :
    (([[1, 2], [5, 0]] : List (List ℚ)) ≠ []
      ∧ ([[1, 2], [5, 0]] : List (List ℚ)).length = ([1, 1] : List ℤ).length
      ∧ (∀ r ∈ ([[1, 2], [5, 0]] : List (List ℚ)), r ≠ []))
    ∧ Accuracy.f [mat [[1, 2], [5, 0]], zvec [1, 1]]
        = some [qvec ((([[1, 2], [5, 0]] : List (List ℚ)).zip ([1, 1] : List ℤ)).map
            (fun p => if (argmaxList p.1 : ℤ) = p.2 then 1 else 0))] :=
  ⟨⟨by decide, by decide, by decide⟩,
    (accuracy_spec [[1, 2], [5, 0]] [1, 1] (by decide) (by decide) (by decide)).1⟩

/-- **C2**: masked positions are excluded from the result: for every
per-position metric `g`, mask value `m`, integer target vector `ts`, and two
prediction tensors that agree at every position whose target differs from `m`
(and may differ arbitrarily where the target equals `m`),
`MaskedScalar(metric, mask_id = m, has_weights = false)` produces the same
scalar. -/
theorem maskedScalar_mask_independence (g : List ℚ → ℚ → ℚ) (m : ℚ)
    (rows1 rows2 : List (List ℚ)) (ts : List ℤ)
    (h1 : rows1.length = ts.length) (h2 : rows2.length = ts.length)
    (hag : ∀ i, i < ts.length → ((ts.getD i 0 : ℤ) : ℚ) ≠ m →
        rows1.getD i [] = rows2.getD i []) :
    serial (MaskedScalar (rowMetric g) (some m) false) [mat rows1, zvec ts]
      = serial (MaskedScalar (rowMetric g) (some m) false) [mat rows2, zvec ts] := by
  have hmask : mapT (maskFn (some m)) (zvec ts)
      = qvec (ts.map (fun t => if ((t : ℤ) : ℚ) = m then 0 else 1)) := by
    rw [zvec_eq_qvec, mask_qvec_some, List.map_map]
    rfl
  have hml : (ts.map (fun t => if ((t : ℤ) : ℚ) = m then (0 : ℚ) else 1)).length
      = ts.length := by simp
  have hvlen : ∀ rows : List (List ℚ), rows.length = ts.length →
      (List.zipWith (fun r t => g r ((t : ℤ) : ℚ)) rows ts).length = ts.length := by
    intro rows hr
    rw [List.length_zipWith, hr, min_self]
  have hrun : ∀ rows : List (List ℚ), rows.length = ts.length →
      serial (MaskedScalar (rowMetric g) (some m) false) [mat rows, zvec ts]
        = some [.scalar
            ((List.zipWith (· * ·) (List.zipWith (fun r t => g r ((t : ℤ) : ℚ)) rows ts)
                (ts.map (fun t => if ((t : ℤ) : ℚ) = m then 0 else 1))).sum
              / (ts.map (fun t => if ((t : ℤ) : ℚ) = m then (0 : ℚ) else 1)).sum)] := by
    intro rows hr
    have hp : zipT (· * ·)
        (qvec (List.zipWith (fun r t => g r ((t : ℤ) : ℚ)) rows ts))
        (mapT (maskFn (some m)) (zvec ts))
        = some (qvec (List.zipWith (· * ·)
            (List.zipWith (fun r t => g r ((t : ℤ) : ℚ)) rows ts)
            (ts.map (fun t => if ((t : ℤ) : ℚ) = m then 0 else 1)))) := by
      rw [hmask]
      exact zipT_qvec _ _ _ (by rw [hvlen rows hr, hml])
    rw [maskedScalar_run (rowMetric g) (some m) (mat rows) (zvec ts) _ _ rfl
      (rowMetric_eval g rows ts) hp]
    rw [hmask, sumAll_qvec, sumAll_qvec]
  rw [hrun rows1 h1, hrun rows2 h2]
  have hnum : (List.zipWith (· * ·) (List.zipWith (fun r t => g r ((t : ℤ) : ℚ)) rows1 ts)
        (ts.map (fun t => if ((t : ℤ) : ℚ) = m then 0 else 1))).sum
      = (List.zipWith (· * ·) (List.zipWith (fun r t => g r ((t : ℤ) : ℚ)) rows2 ts)
        (ts.map (fun t => if ((t : ℤ) : ℚ) = m then 0 else 1))).sum := by
    apply sum_zipWith_mul_congr _ _ _ (by rw [hvlen rows1 h1, hml])
      (by rw [hvlen rows2 h2, hml])
    intro i hi hmne
    rw [hml] at hi
    have hmval : (ts.map (fun t => if ((t : ℤ) : ℚ) = m then (0 : ℚ) else 1)).getD i 0
        = if ((ts.getD i 0 : ℤ) : ℚ) = m then 0 else 1 := by
      rw [List.getD_eq_getElem _ _ (by rw [hml]; exact hi), List.getElem_map,
        List.getD_eq_getElem ts _ hi]
    have hne : ¬ (((ts.getD i 0 : ℤ) : ℚ) = m) := by
      intro hcon
      rw [hmval, if_pos hcon] at hmne
      exact hmne rfl
    have hrows := hag i hi hne
    have hv : ∀ rows : List (List ℚ), rows.length = ts.length →
        (List.zipWith (fun r t => g r ((t : ℤ) : ℚ)) rows ts).getD i 0
          = g (rows.getD i []) ((ts.getD i 0 : ℤ) : ℚ) := by
      intro rows hr
      rw [List.getD_eq_getElem _ _ (by rw [hvlen rows hr]; exact hi),
        List.getElem_zipWith, List.getD_eq_getElem rows _ (by rw [hr]; exact hi),
        List.getD_eq_getElem ts _ hi]
    rw [hv rows1 h1, hv rows2 h2, hrows]
  rw [hnum]

/-- Witness for `maskedScalar_mask_independence` at a concrete input: the two
predictions differ only at the masked position (target `0` equals the mask
id `0`). -/
theorem maskedScalar_mask_independence_witness :
    (([[1], [5]] : List (List ℚ)).length = ([1, 0] : List ℤ).length
      ∧ ([[1], [7]] : List (List ℚ)).length = ([1, 0] : List ℤ).length
      ∧ (∀ i, i < ([1, 0] : List ℤ).length →
          ((([1, 0] : List ℤ).getD i 0 : ℤ) : ℚ) ≠ 0 →
          ([[1], [5]] : List (List ℚ)).getD i [] = ([[1], [7]] : List (List ℚ)).getD i []))
    ∧ serial (MaskedScalar (rowMetric (fun r t => r.sum + t)) (some 0) false)
        [mat [[1], [5]], zvec [1, 0]]
      = serial (MaskedScalar (rowMetric (fun r t => r.sum + t)) (some 0) false)
        [mat [[1], [7]], zvec [1, 0]] :=
  ⟨⟨by decide, by decide, by decide⟩,
    maskedScalar_mask_independence (fun r t => r.sum + t) 0 [[1], [5]] [[1], [7]] [1, 0]
      (by decide) (by decide) (by decide)⟩

/-- **C3**: `WeightedMean` computes `sum(metric * weights) / sum(weights)`
with no guard on the divisor; when the weight sum is nonzero the division is
well-defined (multiplying back by the divisor recovers the numerator), and
when every target position equals the mask id the weight tensor produced by
`WeightMask` sums to `0`, so the division-by-zero branch is reached. -/
theorem weightedMean_division (metric weights p : Tensor) (m : ℚ) (qs : List ℚ)
    (hp : zipT (· * ·) metric weights = some p)
    (hall : ∀ t ∈ qs, t = m) :
    (WeightedMean.f [metric, weights] = some [.scalar (sumAll p / sumAll weights)])
    ∧ (sumAll weights ≠ 0 → sumAll p / sumAll weights * sumAll weights = sumAll p)
    ∧ ((WeightMask (some m)).f [qvec qs] = some [mapT (maskFn (some m)) (qvec qs)])
    ∧ (sumAll (mapT (maskFn (some m)) (qvec qs)) = 0) := by
  refine ⟨?_, ?_, WeightMask_f _ _, ?_⟩
  · simp [WeightedMean, hp]
  · intro h
    field_simp
  · rw [mask_qvec_some, sumAll_qvec]
    have hz : qs.map (fun t => if t = m then (0 : ℚ) else 1) = qs.map (fun _ => 0) :=
      List.map_congr_left (fun t ht => by rw [if_pos (hall t ht)])
    rw [hz]
    simp

/-- Witness for `weightedMean_division` at a concrete input (all targets
equal to the mask id `5`). -/
theorem weightedMean_division_witness :
    (zipT (· * ·) (qvec [2, 3]) (qvec [1, 0]) = some (qvec [2, 0]))
    ∧ (∀ t ∈ ([5, 5] : List ℚ), t = 5)
    ∧ (WeightedMean.f [qvec [2, 3], qvec [1, 0]]
        = some [.scalar (sumAll (qvec [2, 0]) / sumAll (qvec [1, 0]))])
    ∧ sumAll (mapT (maskFn (some 5)) (qvec [5, 5])) = 0 := by
  have hp : zipT (· * ·) (qvec [2, 3]) (qvec [1, 0]) = some (qvec [2, 0]) := by
    norm_num [qvec, zipT, zipTList]
  have hall : ∀ t ∈ ([5, 5] : List ℚ), t = 5 := by decide
  obtain ⟨a, _, _, d⟩ := weightedMean_division (qvec [2, 3]) (qvec [1, 0]) (qvec [2, 0])
    5 [5, 5] hp hall
  exact ⟨hp, hall, a, d⟩

/-- **C5**: `one_hot` applies the jax `tie_in` broadcasting workaround exactly
when the backend name is `"jax"` (the single conditional in its definition),
and the workaround does not change the value: on every backend the result is
the input with an extra last axis of length `n` holding `1` at index `t` and
`0` elsewhere, and for `t` outside `[0, n)` the row is all zeros rather than
an error. -/
theorem one_hot_spec (backend : String) (x : Tensor) (n : ℕ) (ts : List ℤ) :
    (one_hot backend x n = one_hot "jax" x n)
    ∧ (one_hot backend (zvec ts) n = .vec (ts.map (fun t => qvec (oneHotRowSpec t n))))
    ∧ (∀ t : ℤ, t < 0 ∨ (n : ℤ) ≤ t → oneHotRowSpec t n = List.replicate n 0)
    ∧ (∀ t : ℤ, 0 ≤ t → t < (n : ℤ) → (oneHotRowSpec t n).getD t.toNat 0 = 1) := by
  refine ⟨one_hot_backend_irrelevant backend x n, one_hot_zvec_spec backend ts n, ?_, ?_⟩
  · intro t ht
    rw [oneHotRowSpec]
    rcases ht with h | h
    · rw [if_neg (by omega)]
    · by_cases h0 : 0 ≤ t
      · rw [if_pos h0, List.set_eq_of_length_le (by simp; omega)]
      · rw [if_neg h0]
  · intro t h0 hn
    rw [oneHotRowSpec, if_pos h0]
    have hlt : t.toNat < n := by omega
    rw [List.getD_eq_getElem _ _ (by simpa using hlt), List.getElem_set]
    simp

/-- Witness for `one_hot_spec` at concrete inputs (including an out-of-range
and an in-range target). -/
theorem one_hot_spec_witness :
    (one_hot "numpy" (zvec [1, 5, -2]) 3
      = .vec (([1, 5, -2] : List ℤ).map (fun t => qvec (oneHotRowSpec t 3))))
    ∧ oneHotRowSpec 5 3 = List.replicate 3 0
    ∧ (oneHotRowSpec 1 3).getD (1 : ℤ).toNat 0 = 1 := by
  obtain ⟨_, h2, h3, h4⟩ := one_hot_spec "numpy" (zvec [1, 5, -2]) 3 [1, 5, -2]
  exact ⟨h2, h3 5 (by norm_num), h4 1 (by norm_num) (by norm_num)⟩

/-- **C6**: `CrossEntropyLossScalar` is `CrossEntropyScalar` followed by
multiplication of the resulting scalar by `-1.0`; `L2LossScalar` is
(definitionally) the same pipeline as `L2Scalar`, with no negation; and
`NegLogPerplexityScalar` is the same function as `CrossEntropyScalar`. -/
theorem lossScalar_relations (backend : String) (mid : Option ℚ) (hw : Bool)
    (s rest : List Tensor) (q : ℚ)
    (h : serial (CrossEntropyScalar backend mid hw) s = some (Tensor.scalar q :: rest)) :
    (serial (CrossEntropyLossScalar backend mid hw) s
      = some (Tensor.scalar (q * (-1)) :: rest))
    ∧ (∀ (mid2 : Option ℚ) (hw2 : Bool), L2LossScalar mid2 hw2 = L2Scalar mid2 hw2)
    ∧ (∀ (b2 : String) (mid2 : Option ℚ) (hw2 : Bool),
        NegLogPerplexityScalar b2 mid2 hw2 = CrossEntropyScalar b2 mid2 hw2) := by
  refine ⟨?_, fun _ _ => rfl, fun _ _ _ => rfl⟩
  rw [CrossEntropyLossScalar, serial_append, h]
  simp [serial_cons, serial_nil, FnNeg, Layer.apply, mapT]

/-- Witness for `lossScalar_relations` at a concrete run. -/
theorem lossScalar_relations_witness :
    (serial (CrossEntropyScalar "jax" (some 0) false) [mat [[1, 2], [3, 4]], zvec [1, 0]]
      = some (Tensor.scalar 2 :: []))
    ∧ serial (CrossEntropyLossScalar "jax" (some 0) false) [mat [[1, 2], [3, 4]], zvec [1, 0]]
      = some (Tensor.scalar (2 * (-1)) :: []) := by
  have h : serial (CrossEntropyScalar "jax" (some 0) false)
      [mat [[1, 2], [3, 4]], zvec [1, 0]] = some (Tensor.scalar 2 :: []) := by
    norm_num [serial, CrossEntropyScalar, MaskedScalar, Layer.apply, parallel, parallelF,
      idLayer, Dup, WeightMask, WeightedMean, CrossEntropy, mat, qvec, zvec, lastDim,
      one_hot, tie_in, oneHotMap, oneHotMapList, zipT, zipTList, sumLast, sumLastList,
      sumAll, sumAllList, isScalar, mapT, mapTList, List.range, List.range.loop]
  exact ⟨h, (lossScalar_relations "jax" (some 0) false _ [] 2 h).1⟩

lemma zipWith_one_mul (qs ws : List ℚ) (h : ws.length = qs.length) :
    List.zipWith (· * ·) (qs.map (fun _ => (1 : ℚ))) ws = ws := by
  induction qs generalizing ws with
  | nil =>
      cases ws with
      | nil => simp
      | cons w wsr => simp at h
  | cons x xs ih =>
      cases ws with
      | nil => simp
      | cons w wsr =>
          simp only [List.map_cons, List.zipWith_cons_cons, one_mul]
          rw [ih wsr (by simpa using h)]

lemma apply_two (L : Layer) (h : L.n_in = 2) (a b : Tensor) (rest : List Tensor) :
    L.apply (a :: b :: rest) = (L.f [a, b]).map (fun out => out ++ rest) := by
  rw [Layer.apply, h, if_pos (by simp)]
  simp

lemma apply_one (L : Layer) (h : L.n_in = 1) (a : Tensor) (rest : List Tensor) :
    L.apply (a :: rest) = (L.f [a]).map (fun out => out ++ rest) := by
  rw [Layer.apply, h, if_pos (by simp)]
  simp

/-- **C9**: `CountWeights` drops its first input and sums the mask over all
positions: with `mask_id = some m` and `has_weights = false` it returns the
number of target positions different from `m`; with `mask_id = none` the
total element count; with `has_weights = true` it first multiplies the mask
elementwise by the provided weights and then sums — in particular, with
`mask_id = none` and weights the mask is all ones and the result is the sum
of the weights. -/
theorem countWeights_spec (x : Tensor) (m : ℚ) (qs ws : List ℚ)
    (hw : ws.length = qs.length) :
    (serial (CountWeights (some m) false) [x, qvec qs]
      = some [.scalar ((qs.filter (fun t => t ≠ m)).length : ℚ)])
    ∧ (serial (CountWeights none false) [x, qvec qs]
      = some [.scalar (qs.length : ℚ)])
    ∧ (serial (CountWeights (some m) true) [x, qvec qs, qvec ws]
      = some [.scalar ((List.zipWith (fun t w => if t = m then 0 else w) qs ws).sum)])
    ∧ (serial (CountWeights none true) [x, qvec qs, qvec ws]
      = some [.scalar ws.sum]) := by
  refine ⟨?_, ?_, ?_, ?_⟩
  · rw [countWeights_run, mask_qvec_some, sumAll_qvec, sum_mask_count]
  · rw [countWeights_run, mask_qvec_none, sumAll_qvec, sum_map_one]
  · have hmw : zipT (· * ·) (mapT (maskFn (some m)) (qvec qs)) (qvec ws)
        = some (qvec (List.zipWith (· * ·)
            (qs.map (fun t => if t = m then 0 else 1)) ws)) := by
      rw [mask_qvec_some]
      exact zipT_qvec _ _ _ (by simp [hw])
    rw [countWeights_run_weighted (some m) x (qvec qs) (qvec ws) _ hmw, sumAll_qvec,
      zipWith_mask_mul]
  · have hmw : zipT (· * ·) (mapT (maskFn none) (qvec qs)) (qvec ws)
        = some (qvec (List.zipWith (· * ·) (qs.map (fun _ => 1)) ws)) := by
      rw [mask_qvec_none]
      exact zipT_qvec _ _ _ (by simp [hw])
    rw [countWeights_run_weighted none x (qvec qs) (qvec ws) _ hmw, sumAll_qvec,
      zipWith_one_mul qs ws hw]

/-- Witness for `countWeights_spec` at a concrete input. -/
theorem countWeights_spec_witness :
    (([10, 20, 30] : List ℚ).length = ([1, 0, 2] : List ℚ).length)
    ∧ (serial (CountWeights (some 0) false) [qvec [9], qvec [1, 0, 2]]
      = some [.scalar ((([1, 0, 2] : List ℚ).filter (fun t => t ≠ 0)).length : ℚ)])
    ∧ (serial (CountWeights none false) [qvec [9], qvec [1, 0, 2]]
      = some [.scalar ((([1, 0, 2] : List ℚ).length : ℚ))])
    ∧ (serial (CountWeights (some 0) true) [qvec [9], qvec [1, 0, 2], qvec [10, 20, 30]]
      = some [.scalar ((List.zipWith (fun t w => if t = (0 : ℚ) then 0 else w)
          [1, 0, 2] [10, 20, 30]).sum)])
    ∧ (serial (CountWeights none true) [qvec [9], qvec [1, 0, 2], qvec [10, 20, 30]]
      = some [.scalar (([10, 20, 30] : List ℚ).sum)]) := by
  obtain ⟨a, b, c, d⟩ := countWeights_spec (qvec [9]) 0 [1, 0, 2] [10, 20, 30] (by decide)
  exact ⟨by decide, a, b, c, d⟩

/-- **C10**: fixed arities: `CrossEntropy`, `L2`, `Accuracy` and
`WeightedMean` each declare `n_in = 2, n_out = 1`, consume exactly the top
two stack entries (the rest of the stack passes through untouched) and every
successful application of their body produces exactly one output tensor;
`WeightMask` declares `n_in = 1, n_out = 1`, consumes exactly one input and
produces exactly one output. -/
theorem layer_arities (backend : String) (mid : Option ℚ) :
    ((CrossEntropy backend).n_in = 2 ∧ (CrossEntropy backend).n_out = 1
      ∧ (∀ args out, (CrossEntropy backend).f args = some out → out.length = 1)
      ∧ (∀ a b rest, (CrossEntropy backend).apply (a :: b :: rest)
          = ((CrossEntropy backend).f [a, b]).map (fun out => out ++ rest)))
    ∧ (L2.n_in = 2 ∧ L2.n_out = 1
      ∧ (∀ args out, L2.f args = some out → out.length = 1)
      ∧ (∀ a b rest, L2.apply (a :: b :: rest)
          = (L2.f [a, b]).map (fun out => out ++ rest)))
    ∧ (Accuracy.n_in = 2 ∧ Accuracy.n_out = 1
      ∧ (∀ args out, Accuracy.f args = some out → out.length = 1)
      ∧ (∀ a b rest, Accuracy.apply (a :: b :: rest)
          = (Accuracy.f [a, b]).map (fun out => out ++ rest)))
    ∧ (WeightedMean.n_in = 2 ∧ WeightedMean.n_out = 1
      ∧ (∀ args out, WeightedMean.f args = some out → out.length = 1)
      ∧ (∀ a b rest, WeightedMean.apply (a :: b :: rest)
          = (WeightedMean.f [a, b]).map (fun out => out ++ rest)))
    ∧ ((WeightMask mid).n_in = 1 ∧ (WeightMask mid).n_out = 1
      ∧ (∀ args out, (WeightMask mid).f args = some out → out.length = 1)
      ∧ (∀ a rest, (WeightMask mid).apply (a :: rest)
          = ((WeightMask mid).f [a]).map (fun out => out ++ rest))) := by
  refine ⟨⟨rfl, rfl, ?_, fun a b rest => apply_two _ rfl a b rest⟩,
    ⟨rfl, rfl, ?_, fun a b rest => apply_two _ rfl a b rest⟩,
    ⟨rfl, rfl, ?_, fun a b rest => apply_two _ rfl a b rest⟩,
    ⟨rfl, rfl, ?_, fun a b rest => apply_two _ rfl a b rest⟩,
    ⟨WeightMask_n_in mid, ?_, ?_, fun a rest => apply_one _ (WeightMask_n_in mid) a rest⟩⟩
  · intro args out h
    match args with
    | [] => simp [CrossEntropy] at h
    | [a] => simp [CrossEntropy] at h
    | [a, b] =>
        simp only [CrossEntropy, Option.bind_eq_bind, Option.bind_eq_some] at h
        obtain ⟨n, _, pr, _, r, _, hout⟩ := h
        simp only [Option.pure_def, Option.some.injEq] at hout
        rw [← hout]
        rfl
    | a :: b :: c :: rest => simp [CrossEntropy] at h
  · intro args out h
    match args with
    | [] => simp [L2] at h
    | [a] => simp [L2] at h
    | [a, b] =>
        simp only [L2, Option.bind_eq_bind, Option.bind_eq_some] at h
        obtain ⟨d, _, r, _, hout⟩ := h
        simp only [Option.pure_def, Option.some.injEq] at hout
        rw [← hout]
        rfl
    | a :: b :: c :: rest => simp [L2] at h
  · intro args out h
    match args with
    | [] => simp [Accuracy] at h
    | [a] => simp [Accuracy] at h
    | [a, b] =>
        simp only [Accuracy, Option.bind_eq_bind, Option.bind_eq_some] at h
        obtain ⟨pc, _, r, _, hout⟩ := h
        simp only [Option.pure_def, Option.some.injEq] at hout
        rw [← hout]
        rfl
    | a :: b :: c :: rest => simp [Accuracy] at h
  · intro args out h
    match args with
    | [] => simp [WeightedMean] at h
    | [a] => simp [WeightedMean] at h
    | [a, b] =>
        simp only [WeightedMean, Option.bind_eq_bind, Option.bind_eq_some] at h
        obtain ⟨pr, _, hout⟩ := h
        simp only [Option.pure_def, Option.some.injEq] at hout
        rw [← hout]
        rfl
    | a :: b :: c :: rest => simp [WeightedMean] at h
  · cases mid <;> rfl
  · intro args out h
    match args with
    | [] => cases mid <;> simp [WeightMask] at h
    | [a] =>
        cases mid <;> simp only [WeightMask, Option.some.injEq] at h <;> rw [← h] <;> rfl
    | a :: b :: rest => cases mid <;> simp [WeightMask] at h

/-- Witness for `layer_arities` at a concrete input. -/
theorem layer_arities_witness :
    ((CrossEntropy "jax").f [qvec [1, 2], Tensor.scalar 0] = some [Tensor.scalar 1])
    ∧ ([Tensor.scalar (1 : ℚ)] : List Tensor).length = 1
    ∧ (CrossEntropy "jax").apply [qvec [1, 2], Tensor.scalar 0]
        = ((CrossEntropy "jax").f [qvec [1, 2], Tensor.scalar 0]).map
            (fun out => out ++ []) := by
  have heval : (CrossEntropy "jax").f [qvec [1, 2], Tensor.scalar 0]
      = some [Tensor.scalar 1] := by
    norm_num [CrossEntropy, qvec, lastDim, one_hot, tie_in, oneHotMap, oneHotMapList,
      zipT, zipTList, sumLast, sumLastList, sumAll, sumAllList, isScalar,
      List.range, List.range.loop]
  refine ⟨heval, ?_, ?_⟩
  · exact (layer_arities "jax" none).1.2.2.1 [qvec [1, 2], Tensor.scalar 0]
      [Tensor.scalar 1] heval
  · exact (layer_arities "jax" none).1.2.2.2 (qvec [1, 2]) (Tensor.scalar 0) []

end TraxMetrics
